import Mathlib

/-!
Verification development for the flower-shop analytics core
(`backend-python/analytics.py` and `backend-python/recommender.py`).

The pandas dataframes are embedded as lists of records.  `merge(..., how
defaulting to inner)` becomes a relational inner join that preserves the
left frame's row order; `groupby(k)[v].sum()` becomes a mapping from the
ascending-sorted distinct keys to the per-key sums (pandas groupby sorts
group keys ascending by default); `Series.idxmax()` picks the first key
attaining the maximal value; `sort_values(ascending=False)` is modelled as
pandas implements it (an ascending argsort of the values followed by a
reversal), which on the key-ascending, key-distinct output of a groupby
coincides with the ascending lexicographic (value, key) sort, reversed.

Timestamps (`ordered_at`) denote instants measured in seconds; `.dt.date`
becomes floor division by 86400 and `.dt.month` / `.dt.year` are computed
by the standard civil-calendar conversion from a day number.  Because the
spec requires both string and native timestamp inputs to be accepted, a
timestamp cell records whether it is still in raw (string) form or already
parsed; `pd.to_datetime` maps a cell to its parsed form with the same
denoted instant.  `predict_demand` assigns the parsed column back onto its
argument frame (`df_orders['ordered_at'] = pd.to_datetime(...)`), so it is
embedded in state-passing style, returning the forecast together with the
frame as it is left after the call; the other two computations never
assign into their argument frames and so return them unchanged.

`sklearn.linear_model.LinearRegression` on a single feature computes the
ordinary least-squares line; it is embedded by the closed-form slope and
intercept over exact rationals (the file proves that this choice does
minimize the sum of squared residuals).

One consequence of the schema is modelled explicitly: both `order_items`
(data model, spec §3) and `orders` (read by `predict_demand`) carry a
`total_price` column, so the second merge in `get_sales_analytics`
suffixes the overlapping column to `total_price_x` / `total_price_y`, and
the subsequent `df['total_price']` accesses raise `KeyError`.  The
aggregator is therefore embedded as an `Except`-valued function that only
returns a record on the empty-input path and errors on the join path.
-/

set_option linter.unusedVariables false

namespace FlowerShop

/-! ### Data model -/

/-- An `ordered_at` cell: either still the raw (string) form or already
parsed by `pd.to_datetime`; the payload is the instant it denotes, in
seconds. -/
inductive TsCell where
  | raw (t : ℤ)
  | parsed (t : ℤ)
deriving DecidableEq

/-- The instant denoted by a timestamp cell (comparisons performed by
pandas after `pd.to_datetime` compare these instants). -/
def parseTs : TsCell → ℤ
  | .raw t => t
  | .parsed t => t

/-- `pd.to_datetime` on one cell: the same instant, now in parsed form. -/
def normTs (c : TsCell) : TsCell := .parsed (parseTs c)

/-- A row of the `orders` table.  The forecaster reads `total_price`
directly off this table, so the order row carries its stored total. -/
structure Order where
  id : ℕ
  user_id : ℕ
  ordered_at : TsCell
  total_price : ℚ
deriving DecidableEq

/-- A row of the `order_items` table. -/
structure OrderItem where
  order_id : ℕ
  flower_id : ℕ
  quantity : ℕ
  total_price : ℚ
deriving DecidableEq

/-- A row of the `flowers` table. -/
structure Flower where
  id : ℕ
  name : String
  price : ℚ
deriving DecidableEq

/-- `pd.to_datetime` applied to an order's `ordered_at` cell. -/
def normalizeOrder (o : Order) : Order := { o with ordered_at := normTs o.ordered_at }

/-! ### Calendar arithmetic

`dt.date` truncates an instant to its calendar day; `dt.month`/`dt.year`
are recovered from the day number by the standard civil-from-days
conversion. -/

def secondsPerDay : ℤ := 86400

/-- The calendar day (as a day number) containing instant `t`. -/
def dateOf (t : ℤ) : ℤ := Int.fdiv t secondsPerDay

/-- Civil calendar date `(year, month, day)` of a day number (days since
1970-01-01). -/
def civilOfDays (z0 : ℤ) : ℤ × ℤ × ℤ :=
  let z := z0 + 719468
  let era := Int.fdiv z 146097
  let doe := z - era * 146097
  let yoe := Int.fdiv (doe - Int.fdiv doe 1460 + Int.fdiv doe 36524 - Int.fdiv doe 146096) 365
  let y := yoe + era * 400
  let doy := doe - (365 * yoe + Int.fdiv yoe 4 - Int.fdiv yoe 100)
  let mp := Int.fdiv (5 * doy + 2) 153
  let d := doy - Int.fdiv (153 * mp + 2) 5 + 1
  let m := mp + (if mp < 10 then 3 else -9)
  (y + (if m ≤ 2 then 1 else 0), m, d)

def monthOfDay (z : ℤ) : ℤ := (civilOfDays z).2.1

def yearOfDay (z : ℤ) : ℤ := (civilOfDays z).1

/-! ### Grouped sums (`df.groupby(key)[val].sum()`)

pandas sorts the group keys ascending; the result maps each distinct key
to the sum of the value column over that key's rows. -/

/-- Insert a key into an ascending, duplicate-free key list. -/
def insertSorted {κ : Type} [LinearOrder κ] (k : κ) : List κ → List κ
  | [] => [k]
  | x :: xs => if k < x then k :: x :: xs else if k = x then x :: xs else x :: insertSorted k xs

/-- The ascending, duplicate-free list of keys occurring in `ks`. -/
def sortedKeys {κ : Type} [LinearOrder κ] (ks : List κ) : List κ := ks.foldr insertSorted []

/-- The sum of the value column over the rows carrying one key. -/
def keySum {ρ κ M : Type} [LinearOrder κ] [AddCommMonoid M]
    (key : ρ → κ) (val : ρ → M) (rows : List ρ) (k : κ) : M :=
  ((rows.filter (fun r => decide (key r = k))).map val).sum

/-- `rows.groupby(key)[val].sum()`: ascending distinct keys, each paired
with the sum of `val` over its rows. -/
def groupSum {ρ κ M : Type} [LinearOrder κ] [AddCommMonoid M]
    (key : ρ → κ) (val : ρ → M) (rows : List ρ) : List (κ × M) :=
  (sortedKeys (rows.map key)).map (fun k => (k, keySum key val rows k))

/-! ### `Series.idxmax()`: first key attaining the maximal value. -/

def idxmaxAux {κ M : Type} [LinearOrder M] (best : κ × M) (l : List (κ × M)) : κ × M :=
  l.foldl (fun b q => if b.2 < q.2 then q else b) best

def idxmax {κ M : Type} [LinearOrder M] : List (κ × M) → Option κ
  | [] => none
  | p :: l => some (idxmaxAux p l).1

/-! ### `Series.sort_values(ascending=False)` on a groupby result

pandas computes an ascending argsort of the values and reverses it.  The
argsort is stable on the inputs arising here, and the groupby result it is
applied to has strictly ascending (hence distinct) keys, so the ascending
stable sort by value coincides with the ascending lexicographic
(value, key) sort; the reversal of that sort is the embedded model. -/

def lexLe {κ M : Type} [LinearOrder κ] [LinearOrder M] (p q : κ × M) : Prop :=
  p.2 < q.2 ∨ (p.2 = q.2 ∧ p.1 ≤ q.1)

instance {κ M : Type} [LinearOrder κ] [LinearOrder M] (p q : κ × M) :
    Decidable (lexLe p q) := by
  unfold lexLe; infer_instance

def insertPair {κ M : Type} [LinearOrder κ] [LinearOrder M] (p : κ × M) :
    List (κ × M) → List (κ × M)
  | [] => [p]
  | q :: qs => if lexLe p q then p :: q :: qs else q :: insertPair p qs

def sortPairsAsc {κ M : Type} [LinearOrder κ] [LinearOrder M] (l : List (κ × M)) :
    List (κ × M) :=
  l.foldr insertPair []

def sortValuesDesc {κ M : Type} [LinearOrder κ] [LinearOrder M] (l : List (κ × M)) :
    List (κ × M) :=
  (sortPairsAsc l).reverse

/-- `.sort_values(ascending=False).head(n)`. -/
def topVals {κ M : Type} [LinearOrder κ] [LinearOrder M] (n : ℕ) (l : List (κ × M)) :
    List (κ × M) :=
  (sortValuesDesc l).take n

/-! ### Sales aggregator (`analytics.get_sales_analytics`) -/

/-- One row of `order_items.merge(flowers, left_on='flower_id',
right_on='id').merge(orders, left_on='order_id', right_on='id')`.  The
merged frame carries the columns of all three tables; the revenue
aggregations below read the line-item `total_price` column (spec §4.1). -/
structure JRow where
  item : OrderItem
  flower : Flower
  order : Order
deriving DecidableEq

/-- The double inner join, preserving the left (`order_items`) row order
as pandas' inner merge does. -/
def joinRows (orders : List Order) (items : List OrderItem) (flowers : List Flower) :
    List JRow :=
  items.flatMap (fun it =>
    (flowers.filter (fun f => decide (f.id = it.flower_id))).flatMap (fun f =>
      (orders.filter (fun o => decide (o.id = it.order_id))).map (fun o => ⟨it, f, o⟩)))

structure SalesAnalytics where
  most_sold_flower : Option String
  daily_revenue : ℚ
  monthly_revenue : ℚ
  top_customers : List (ℕ × ℚ)
deriving DecidableEq

/-- Line 23 of `get_sales_analytics`: the most-sold flower name, grouped
over the merged frame's `name` and `quantity` columns (which do not
collide in the merge).  In the source this value is computed just before
the raising `total_price` access at line 27, and is never returned. -/
def mostSoldOf (orders : List Order) (items : List OrderItem)
    (flowers : List Flower) : Option String :=
  idxmax (groupSum (fun r : JRow => r.flower.name) (fun r => r.item.quantity)
    (joinRows orders items flowers))

/-- `get_sales_analytics`.  The empty-input guard (lines 7-13) returns
the zero-valued record before any merge.  Past the guard, the merge at
line 17 joins two frames that both carry a `total_price` column
(order_items per the data model, and orders, which `predict_demand`
reads), so pandas suffixes the overlapping non-key column to
`total_price_x` / `total_price_y`; the accesses `df['total_price']` at
lines 27, 32 and 35 then raise `KeyError('total_price')` and the join
path never returns a record.  Line 23's most-sold groupby, over the
collision-free `name` and `quantity` columns, is the last step that
succeeds before the raise — see `mostSoldOf`. -/
def getSalesAnalytics (orders : List Order) (items : List OrderItem)
    (flowers : List Flower) (now : ℤ) : Except String SalesAnalytics :=
  if orders = [] ∨ items = [] then
    .ok ⟨none, 0, 0, []⟩
  else
    .error "total_price"

/-- `get_sales_analytics` never assigns into its argument frames (its only
column assignment, `df['ordered_at'] = ...` at line 20, targets the local
merged frame), so the snapshots after the call — whether it returns or
raises — are the inputs themselves. -/
def getSalesAnalyticsEff (orders : List Order) (items : List OrderItem)
    (flowers : List Flower) (now : ℤ) :
    Except String SalesAnalytics × (List Order × List OrderItem × List Flower) :=
  (getSalesAnalytics orders items flowers now, (orders, items, flowers))

/-! ### Demand forecaster (`analytics.predict_demand`) -/

/-- `np.arange(len(ys))` paired with `ys`: the regression sample, indexing
the daily revenues from `x` upward. -/
def idxFrom (x : ℚ) : List ℚ → List (ℚ × ℚ)
  | [] => []
  | y :: ys => (x, y) :: idxFrom (x + 1) ys

def sN (pts : List (ℚ × ℚ)) : ℚ := pts.length

def sX (pts : List (ℚ × ℚ)) : ℚ := (pts.map (fun p => p.1)).sum

def sY (pts : List (ℚ × ℚ)) : ℚ := (pts.map (fun p => p.2)).sum

def sXX (pts : List (ℚ × ℚ)) : ℚ := (pts.map (fun p => p.1 * p.1)).sum

def sXY (pts : List (ℚ × ℚ)) : ℚ := (pts.map (fun p => p.1 * p.2)).sum

def dDet (pts : List (ℚ × ℚ)) : ℚ := sN pts * sXX pts - sX pts * sX pts

/-- Closed-form ordinary least-squares slope (what
`LinearRegression().fit` computes on one feature). -/
def olsSlope (pts : List (ℚ × ℚ)) : ℚ := (sN pts * sXY pts - sX pts * sY pts) / dDet pts

/-- Closed-form ordinary least-squares intercept. -/
def olsIntercept (pts : List (ℚ × ℚ)) : ℚ := (sY pts - olsSlope pts * sX pts) / sN pts

/-- Sum of squared residuals of the line `y = a*x + b` over the sample. -/
def sse (pts : List (ℚ × ℚ)) (a b : ℚ) : ℚ :=
  (pts.map (fun p => (p.2 - (a * p.1 + b)) * (p.2 - (a * p.1 + b)))).sum

/-- `df_orders.groupby(df_orders['ordered_at'].dt.date)['total_price'].sum()`:
one `(date, revenue)` row per distinct order date, dates ascending. -/
def demandSeries (orders : List Order) : List (ℤ × ℚ) :=
  groupSum (fun o => dateOf (parseTs o.ordered_at)) (fun o => o.total_price) orders

structure ForecastPoint where
  date : ℤ
  predicted_demand : ℚ
deriving DecidableEq

/-- `predict_demand`, in state-passing form: the forecast together with
the `df_orders` frame as the call leaves it.  The emptiness check runs
before the `pd.to_datetime` column assignment, so an empty frame is
returned untouched; any non-empty frame is left with its `ordered_at`
column parsed. -/
def predictDemandEff (orders : List Order) : List ForecastPoint × List Order :=
  if orders = [] then ([], orders) else
  let orders' := orders.map normalizeOrder
  let ds := demandSeries orders'
  if ds.length < 2 then ([], orders') else
  let pts := idxFrom 0 (ds.map (fun p => p.2))
  let a := olsSlope pts
  let b := olsIntercept pts
  let lastD := ((ds.map (fun p => p.1)).max?).getD 0
  (((List.range 7).map
      (fun i => ⟨lastD + (i : ℤ) + 1, max 0 (a * ((ds.length : ℚ) + (i : ℚ)) + b)⟩)),
    orders')

/-- The forecast returned to the caller. -/
def predictDemand (orders : List Order) : List ForecastPoint := (predictDemandEff orders).1

/-! ### Recommendation engine (`recommender.get_recommendations`) -/

/-- `str.contains` with a pattern that is an alternation of literal names:
leading-match check for one alternative. -/
def subAt : List Char → List Char → Bool
  | [], _ => true
  | _ :: _, [] => false
  | a :: as, b :: bs => a == b && subAt as bs

/-- Substring occurrence anywhere in the haystack. -/
def hasSub (pat : List Char) : List Char → Bool
  | [] => subAt pat []
  | c :: rest => subAt pat (c :: rest) || hasSub pat rest

/-- Case folding used by `case=False` matching. -/
def lowerStr (s : String) : List Char := s.data.map Char.toLower

/-- `df_flowers['name'].str.contains(pat, case=False)` for one literal
alternative `pat`. -/
def containsCI (s pat : String) : Bool := hasSub (lowerStr pat) (lowerStr s)

/-- The `seasonal_map` dictionary: the first (and only) month group
containing the current month selects its flower names. -/
def seasonWords (m : ℤ) : List String :=
  if m = 12 ∨ m = 1 ∨ m = 2 then ["Poinsettia", "Winter Jasmine", "Amaryllis"]
  else if m = 3 ∨ m = 4 ∨ m = 5 then ["Tulip", "Daffodil", "Peony"]
  else if m = 6 ∨ m = 7 ∨ m = 8 then ["Sunflower", "Rose", "Lavender"]
  else if m = 9 ∨ m = 10 ∨ m = 11 then ["Chrysanthemum", "Marigold", "Dahlia"]
  else []

/-- `df_orders[df_orders['user_id'] == user_id]`. -/
def userOrdersOf (uid : ℕ) (orders : List Order) : List Order :=
  orders.filter (fun o => decide (o.user_id = uid))

/-- `df_order_items[df_order_items['order_id'].isin(sel['id'])]`. -/
def itemsOfOrders (sel : List Order) (items : List OrderItem) : List OrderItem :=
  items.filter (fun it => decide (it.order_id ∈ sel.map (fun o => o.id)))

/-- `df_orders[pd.to_datetime(df_orders['ordered_at']) >= datetime.now() -
timedelta(days=7)]`: at or after `now` minus 7 days, with no upper bound. -/
def recentOrdersOf (now : ℤ) (orders : List Order) : List Order :=
  orders.filter (fun o => decide (now - 7 * secondsPerDay ≤ parseTs o.ordered_at))

/-- `groupby('flower_id')['quantity'].sum().sort_values(ascending=False).head(3)`. -/
def topIdPairs (items' : List OrderItem) : List (ℕ × ℕ) :=
  topVals 3 (groupSum (fun it => it.flower_id) (fun it => it.quantity) items')

/-- `... .index.tolist()`. -/
def topIds (items' : List OrderItem) : List ℕ := (topIdPairs items').map (fun p => p.1)

/-- `df_flowers[df_flowers['id'].isin(ids)][['id', 'name', 'price']]`: the
catalog rows whose id is selected, in catalog order (a `Flower` record has
exactly the three projected columns). -/
def resolveIds (flowers : List Flower) (ids : List ℕ) : List Flower :=
  flowers.filter (fun f => decide (f.id ∈ ids))

structure Recommendations where
  most_purchased : List Flower
  seasonal : List Flower
  trending : List Flower
deriving DecidableEq

/-- `get_recommendations`. -/
def getRecommendations (uid : ℕ) (orders : List Order) (items : List OrderItem)
    (flowers : List Flower) (now : ℤ) : Recommendations :=
  if orders = [] ∨ flowers = [] then ⟨[], [], []⟩ else
  let uo := userOrdersOf uid orders
  let mp := if uo = [] then [] else
    let ui := itemsOfOrders uo items
    if ui = [] then [] else resolveIds flowers (topIds ui)
  let ro := recentOrdersOf now orders
  let tr := if ro = [] then [] else
    let ri := itemsOfOrders ro items
    if ri = [] then [] else resolveIds flowers (topIds ri)
  let seas := flowers.filter (fun f => (seasonWords (monthOfDay (dateOf now))).any
    (fun w => containsCI f.name w))
  ⟨mp, seas, tr⟩

/-- `get_recommendations` never assigns into its argument frames
(`pd.to_datetime(df_orders['ordered_at'])` on line 24 builds a fresh
series without writing it back), so the snapshots after the call are the
inputs themselves. -/
def getRecommendationsEff (uid : ℕ) (orders : List Order) (items : List OrderItem)
    (flowers : List Flower) (now : ℤ) :
    Recommendations × (List Order × List OrderItem × List Flower) :=
  (getRecommendations uid orders items flowers now, (orders, items, flowers))

end FlowerShop

/-! ## Ordinary least squares: the closed-form line minimizes the sum of
squared residuals -/

namespace FlowerShop

@[simp] theorem sN_nil : sN [] = 0 := rfl

@[simp] theorem sN_cons (p : ℚ × ℚ) (l : List (ℚ × ℚ)) : sN (p :: l) = sN l + 1 := by
  simp [sN]

@[simp] theorem sX_nil : sX [] = 0 := rfl

@[simp] theorem sX_cons (p : ℚ × ℚ) (l : List (ℚ × ℚ)) : sX (p :: l) = p.1 + sX l := by
  simp [sX]

@[simp] theorem sY_nil : sY [] = 0 := rfl

@[simp] theorem sY_cons (p : ℚ × ℚ) (l : List (ℚ × ℚ)) : sY (p :: l) = p.2 + sY l := by
  simp [sY]

@[simp] theorem sXX_nil : sXX [] = 0 := rfl

@[simp] theorem sXX_cons (p : ℚ × ℚ) (l : List (ℚ × ℚ)) :
    sXX (p :: l) = p.1 * p.1 + sXX l := by
  simp [sXX]

@[simp] theorem sXY_nil : sXY [] = 0 := rfl

@[simp] theorem sXY_cons (p : ℚ × ℚ) (l : List (ℚ × ℚ)) :
    sXY (p :: l) = p.1 * p.2 + sXY l := by
  simp [sXY]

@[simp] theorem sse_nil (a b : ℚ) : sse [] a b = 0 := rfl

@[simp] theorem sse_cons (p : ℚ × ℚ) (l : List (ℚ × ℚ)) (a b : ℚ) :
    sse (p :: l) a b = (p.2 - (a * p.1 + b)) * (p.2 - (a * p.1 + b)) + sse l a b := by
  simp [sse]

/-- Shifting the line by `(u, v)` changes the sum of squared residuals by
twice the two normal-equation terms plus a quadratic form. -/
theorem sse_expand (l : List (ℚ × ℚ)) (a b u v : ℚ) :
    sse l (a - u) (b - v) =
      sse l a b + 2 * u * (sXY l - a * sXX l - b * sX l) +
        2 * v * (sY l - a * sX l - b * sN l) +
        (u * u * sXX l + 2 * u * v * sX l + v * v * sN l) := by
  induction l with
  | nil => simp
  | cons p l ih =>
    simp only [sse_cons, sXY_cons, sXX_cons, sX_cons, sY_cons, sN_cons]
    rw [ih]
    ring

theorem quad_nonneg (l : List (ℚ × ℚ)) (u v : ℚ) :
    0 ≤ u * u * sXX l + 2 * u * v * sX l + v * v * sN l := by
  induction l with
  | nil => simp
  | cons p l ih =>
    simp only [sXX_cons, sX_cons, sN_cons]
    nlinarith [sq_nonneg (u * p.1 + v)]

theorem normalEq_intercept (l : List (ℚ × ℚ)) (hn : sN l ≠ 0) :
    sY l - olsSlope l * sX l - olsIntercept l * sN l = 0 := by
  rw [olsIntercept]
  field_simp

theorem normalEq_slope (l : List (ℚ × ℚ)) (hn : sN l ≠ 0) (hd : dDet l ≠ 0) :
    sXY l - olsSlope l * sXX l - olsIntercept l * sX l = 0 := by
  have hd' : sN l * sXX l - sX l * sX l ≠ 0 := by rwa [dDet] at hd
  rw [olsIntercept, olsSlope, dDet]
  field_simp
  ring

/-- The closed-form slope and intercept minimize the sum of squared
residuals over all lines. -/
theorem ols_min (l : List (ℚ × ℚ)) (hn : sN l ≠ 0) (hd : dDet l ≠ 0) (a' b' : ℚ) :
    sse l (olsSlope l) (olsIntercept l) ≤ sse l a' b' := by
  have key : sse l a' b' =
      sse l (olsSlope l - (olsSlope l - a')) (olsIntercept l - (olsIntercept l - b')) := by
    norm_num
  rw [key, sse_expand l (olsSlope l) (olsIntercept l) (olsSlope l - a') (olsIntercept l - b')]
  have h1 := normalEq_intercept l hn
  have h2 := normalEq_slope l hn hd
  have h3 := quad_nonneg l (olsSlope l - a') (olsIntercept l - b')
  rw [h1, h2]
  linarith [h3]

@[simp] theorem idxFrom_nil (x : ℚ) : idxFrom x [] = [] := rfl

@[simp] theorem idxFrom_cons (x : ℚ) (y : ℚ) (ys : List ℚ) :
    idxFrom x (y :: ys) = (x, y) :: idxFrom (x + 1) ys := rfl

theorem idxFrom_length (ys : List ℚ) : ∀ x : ℚ, (idxFrom x ys).length = ys.length := by
  induction ys with
  | nil => intro x; rfl
  | cons y ys ih => intro x; simp [ih]

theorem sN_idxFrom (ys : List ℚ) (x : ℚ) : sN (idxFrom x ys) = (ys.length : ℚ) := by
  rw [sN, idxFrom_length]

theorem sX_idxFrom (ys : List ℚ) : ∀ x : ℚ,
    sX (idxFrom x ys) =
      (ys.length : ℚ) * x + ((ys.length : ℚ) * ((ys.length : ℚ) - 1)) / 2 := by
  induction ys with
  | nil => intro x; simp
  | cons y ys ih =>
    intro x
    rw [idxFrom_cons, sX_cons, ih (x + 1)]
    simp only [List.length_cons]
    push_cast
    ring

theorem sXX_idxFrom (ys : List ℚ) : ∀ x : ℚ,
    sXX (idxFrom x ys) =
      (ys.length : ℚ) * x * x + (ys.length : ℚ) * ((ys.length : ℚ) - 1) * x +
        ((ys.length : ℚ) * ((ys.length : ℚ) - 1) * (2 * (ys.length : ℚ) - 1)) / 6 := by
  induction ys with
  | nil => intro x; simp
  | cons y ys ih =>
    intro x
    rw [idxFrom_cons, sXX_cons, ih (x + 1)]
    simp only [List.length_cons]
    push_cast
    ring

theorem dDet_idxFrom (ys : List ℚ) :
    dDet (idxFrom 0 ys) =
      ((ys.length : ℚ) * (ys.length : ℚ) * ((ys.length : ℚ) * (ys.length : ℚ) - 1)) / 12 := by
  rw [dDet, sN_idxFrom, sX_idxFrom, sXX_idxFrom]
  ring

theorem dDet_idxFrom_pos (ys : List ℚ) (h : 2 ≤ ys.length) : 0 < dDet (idxFrom 0 ys) := by
  rw [dDet_idxFrom]
  have h' : (2 : ℚ) ≤ (ys.length : ℚ) := by exact_mod_cast h
  have h4 : (4 : ℚ) ≤ (ys.length : ℚ) * (ys.length : ℚ) := by nlinarith
  apply div_pos
  · nlinarith
  · norm_num

theorem sN_idxFrom_ne (ys : List ℚ) (h : 2 ≤ ys.length) : sN (idxFrom 0 ys) ≠ 0 := by
  rw [sN_idxFrom]
  have h' : (2 : ℚ) ≤ (ys.length : ℚ) := by exact_mod_cast h
  intro hc
  rw [hc] at h'
  norm_num at h'

end FlowerShop

/-! ## Grouped-sum and idxmax lemmas -/

namespace FlowerShop

theorem mem_insertSorted {κ : Type} [LinearOrder κ] (k k' : κ) (l : List κ) :
    k' ∈ insertSorted k l ↔ k' = k ∨ k' ∈ l := by
  induction l with
  | nil => simp [insertSorted]
  | cons x xs ih =>
    simp only [insertSorted]
    split
    · simp [List.mem_cons]
    · split
      · rename_i hlt heq
        subst heq
        simp [List.mem_cons]
      · simp only [List.mem_cons, ih]
        tauto

theorem pairwise_insertSorted {κ : Type} [LinearOrder κ] (k : κ) (l : List κ)
    (h : l.Pairwise (· < ·)) : (insertSorted k l).Pairwise (· < ·) := by
  induction l with
  | nil => simp [insertSorted]
  | cons x xs ih =>
    rw [List.pairwise_cons] at h
    obtain ⟨hx, hxs⟩ := h
    simp only [insertSorted]
    split
    · rename_i hkx
      refine List.pairwise_cons.2 ⟨?_, List.pairwise_cons.2 ⟨hx, hxs⟩⟩
      intro b hb
      rcases List.mem_cons.1 hb with rfl | hb'
      · exact hkx
      · exact lt_trans hkx (hx b hb')
    · split
      · exact List.pairwise_cons.2 ⟨hx, hxs⟩
      · rename_i hkx hke
        refine List.pairwise_cons.2 ⟨?_, ih hxs⟩
        intro b hb
        rcases (mem_insertSorted k b xs).1 hb with rfl | hb'
        · exact lt_of_le_of_ne (not_lt.1 hkx) (fun hxk => hke hxk.symm)
        · exact hx b hb'

theorem sortedKeys_cons {κ : Type} [LinearOrder κ] (k : κ) (ks : List κ) :
    sortedKeys (k :: ks) = insertSorted k (sortedKeys ks) := rfl

theorem pairwise_sortedKeys {κ : Type} [LinearOrder κ] (ks : List κ) :
    (sortedKeys ks).Pairwise (· < ·) := by
  induction ks with
  | nil => simp [sortedKeys]
  | cons k ks ih =>
    rw [sortedKeys_cons]
    exact pairwise_insertSorted k _ ih

theorem mem_sortedKeys {κ : Type} [LinearOrder κ] (ks : List κ) (k' : κ) :
    k' ∈ sortedKeys ks ↔ k' ∈ ks := by
  induction ks with
  | nil => simp [sortedKeys]
  | cons k ks ih =>
    rw [sortedKeys_cons, mem_insertSorted]
    simp [ih]

theorem nodup_sortedKeys {κ : Type} [LinearOrder κ] (ks : List κ) :
    (sortedKeys ks).Nodup :=
  (pairwise_sortedKeys ks).imp ne_of_lt

theorem groupSum_keys {ρ κ M : Type} [LinearOrder κ] [AddCommMonoid M]
    (key : ρ → κ) (val : ρ → M) (rows : List ρ) :
    (groupSum key val rows).map Prod.fst = sortedKeys (rows.map key) := by
  rw [groupSum, List.map_map]
  have hcomp : (Prod.fst ∘ fun k : κ => (k, keySum key val rows k)) = id := rfl
  rw [hcomp, List.map_id]

theorem nodup_groupSum_keys {ρ κ M : Type} [LinearOrder κ] [AddCommMonoid M]
    (key : ρ → κ) (val : ρ → M) (rows : List ρ) :
    ((groupSum key val rows).map Prod.fst).Nodup := by
  rw [groupSum_keys]
  exact nodup_sortedKeys _

theorem mem_groupSum {ρ κ M : Type} [LinearOrder κ] [AddCommMonoid M]
    (key : ρ → κ) (val : ρ → M) (rows : List ρ) (p : κ × M) :
    p ∈ groupSum key val rows ↔
      p.1 ∈ rows.map key ∧ p.2 = keySum key val rows p.1 := by
  rw [groupSum]
  constructor
  · intro hp
    obtain ⟨k, hk, hkp⟩ := List.mem_map.1 hp
    subst hkp
    exact ⟨(mem_sortedKeys _ _).1 hk, rfl⟩
  · rintro ⟨hk, hv⟩
    refine List.mem_map.2 ⟨p.1, (mem_sortedKeys _ _).2 hk, ?_⟩
    rw [← hv]

theorem groupSum_length {ρ κ M : Type} [LinearOrder κ] [AddCommMonoid M]
    (key : ρ → κ) (val : ρ → M) (rows : List ρ) :
    (groupSum key val rows).length = (sortedKeys (rows.map key)).length := by
  rw [groupSum, List.length_map]

theorem idxmaxAux_cons {κ M : Type} [LinearOrder M] (best q : κ × M) (l : List (κ × M)) :
    idxmaxAux best (q :: l) = idxmaxAux (if best.2 < q.2 then q else best) l := rfl

theorem idxmaxAux_mem {κ M : Type} [LinearOrder M] (l : List (κ × M)) :
    ∀ best : κ × M, idxmaxAux best l ∈ best :: l := by
  induction l with
  | nil => intro best; simp [idxmaxAux]
  | cons q l ih =>
    intro best
    rw [idxmaxAux_cons]
    have h := ih (if best.2 < q.2 then q else best)
    by_cases hc : best.2 < q.2 <;> simp [hc] at h ⊢ <;> tauto

theorem idxmaxAux_ge {κ M : Type} [LinearOrder M] (l : List (κ × M)) :
    ∀ best : κ × M, ∀ p ∈ best :: l, p.2 ≤ (idxmaxAux best l).2 := by
  induction l with
  | nil =>
    intro best p hp
    rcases List.mem_cons.1 hp with rfl | hp'
    · exact le_rfl
    · simp at hp'
  | cons q l ih =>
    intro best p hp
    rw [idxmaxAux_cons]
    have hb : best.2 ≤ (if best.2 < q.2 then q else best).2 ∧
        q.2 ≤ (if best.2 < q.2 then q else best).2 := by
      by_cases hc : best.2 < q.2
      · rw [if_pos hc]
        exact ⟨le_of_lt hc, le_rfl⟩
      · rw [if_neg hc]
        exact ⟨le_rfl, not_lt.1 hc⟩
    have hself := ih (if best.2 < q.2 then q else best) _
      (List.mem_cons_self (if best.2 < q.2 then q else best) l)
    rcases List.mem_cons.1 hp with rfl | hp'
    · exact le_trans hb.1 hself
    · rcases List.mem_cons.1 hp' with rfl | hp''
      · exact le_trans hb.2 hself
      · exact ih _ p (List.mem_cons_of_mem _ hp'')

theorem idxmax_spec {κ M : Type} [LinearOrder M] (l : List (κ × M)) (hne : l ≠ []) :
    ∃ p : κ × M, idxmax l = some p.1 ∧ p ∈ l ∧ ∀ q ∈ l, q.2 ≤ p.2 := by
  cases l with
  | nil => exact absurd rfl hne
  | cons p0 l =>
    refine ⟨idxmaxAux p0 l, rfl, idxmaxAux_mem l p0, idxmaxAux_ge l p0⟩

end FlowerShop

/-! ## Sorting and top-N lemmas -/

namespace FlowerShop

theorem lexLe_total {κ M : Type} [LinearOrder κ] [LinearOrder M] (p q : κ × M)
    (h : ¬ lexLe p q) : lexLe q p := by
  rw [lexLe] at h ⊢
  push_neg at h
  obtain ⟨h1, h2⟩ := h
  rcases lt_or_eq_of_le h1 with hlt | heq
  · exact Or.inl hlt
  · exact Or.inr ⟨heq, le_of_lt (h2 heq.symm)⟩

theorem lexLe_trans {κ M : Type} [LinearOrder κ] [LinearOrder M] (p q r : κ × M)
    (h1 : lexLe p q) (h2 : lexLe q r) : lexLe p r := by
  rw [lexLe] at h1 h2 ⊢
  rcases h1 with h1 | ⟨h1e, h1k⟩ <;> rcases h2 with h2 | ⟨h2e, h2k⟩
  · exact Or.inl (lt_trans h1 h2)
  · exact Or.inl (lt_of_lt_of_le h1 (le_of_eq h2e))
  · exact Or.inl (lt_of_le_of_lt (le_of_eq h1e) h2)
  · exact Or.inr ⟨h1e.trans h2e, le_trans h1k h2k⟩

theorem insertPair_perm {κ M : Type} [LinearOrder κ] [LinearOrder M] (p : κ × M)
    (l : List (κ × M)) : (insertPair p l).Perm (p :: l) := by
  induction l with
  | nil => exact List.Perm.refl _
  | cons q qs ih =>
    simp only [insertPair]
    split
    · exact List.Perm.refl _
    · exact (List.Perm.cons q ih).trans (List.Perm.swap p q qs)

theorem sortPairsAsc_perm {κ M : Type} [LinearOrder κ] [LinearOrder M]
    (l : List (κ × M)) : (sortPairsAsc l).Perm l := by
  induction l with
  | nil => exact List.Perm.nil
  | cons p l ih =>
    have h1 : sortPairsAsc (p :: l) = insertPair p (sortPairsAsc l) := rfl
    rw [h1]
    exact (insertPair_perm p _).trans (List.Perm.cons p ih)

theorem insertPair_pairwise {κ M : Type} [LinearOrder κ] [LinearOrder M] (p : κ × M)
    (l : List (κ × M)) (h : l.Pairwise lexLe) : (insertPair p l).Pairwise lexLe := by
  induction l with
  | nil => simp [insertPair]
  | cons q qs ih =>
    rw [List.pairwise_cons] at h
    obtain ⟨hq, hqs⟩ := h
    simp only [insertPair]
    split
    · rename_i hpq
      refine List.pairwise_cons.2 ⟨?_, List.pairwise_cons.2 ⟨hq, hqs⟩⟩
      intro b hb
      rcases List.mem_cons.1 hb with rfl | hb'
      · exact hpq
      · exact lexLe_trans p q b hpq (hq b hb')
    · rename_i hpq
      refine List.pairwise_cons.2 ⟨?_, ih hqs⟩
      intro b hb
      rcases List.mem_cons.1 ((insertPair_perm p qs).mem_iff.1 hb) with heq | hb'
      · rw [heq]
        exact lexLe_total p q hpq
      · exact hq b hb'

theorem sortPairsAsc_pairwise {κ M : Type} [LinearOrder κ] [LinearOrder M]
    (l : List (κ × M)) : (sortPairsAsc l).Pairwise lexLe := by
  induction l with
  | nil => simp [sortPairsAsc]
  | cons p l ih =>
    have h1 : sortPairsAsc (p :: l) = insertPair p (sortPairsAsc l) := rfl
    rw [h1]
    exact insertPair_pairwise p _ ih

theorem sortValuesDesc_pairwise {κ M : Type} [LinearOrder κ] [LinearOrder M]
    (l : List (κ × M)) : (sortValuesDesc l).Pairwise (fun p q => lexLe q p) := by
  rw [sortValuesDesc]
  exact List.pairwise_reverse.2 (sortPairsAsc_pairwise l)

theorem topVals_pairwise {κ M : Type} [LinearOrder κ] [LinearOrder M] (n : ℕ)
    (l : List (κ × M)) : (topVals n l).Pairwise (fun p q => lexLe q p) :=
  List.Pairwise.sublist (List.take_sublist n _) (sortValuesDesc_pairwise l)

theorem mem_sortValuesDesc {κ M : Type} [LinearOrder κ] [LinearOrder M]
    (l : List (κ × M)) (p : κ × M) : p ∈ sortValuesDesc l ↔ p ∈ l := by
  rw [sortValuesDesc, List.mem_reverse]
  exact (sortPairsAsc_perm l).mem_iff

theorem topVals_subset {κ M : Type} [LinearOrder κ] [LinearOrder M] (n : ℕ)
    (l : List (κ × M)) (p : κ × M) (hp : p ∈ topVals n l) : p ∈ l :=
  (mem_sortValuesDesc l p).1 (List.mem_of_mem_take hp)

theorem topVals_length {κ M : Type} [LinearOrder κ] [LinearOrder M] (n : ℕ)
    (l : List (κ × M)) : (topVals n l).length = min n l.length := by
  rw [topVals, List.length_take, sortValuesDesc, List.length_reverse,
    (sortPairsAsc_perm l).length_eq]

/-- Every element kept by `head(n)` dominates (in the reversed
lexicographic order) every element of the input whose key was cut. -/
theorem topVals_sep {κ M : Type} [LinearOrder κ] [LinearOrder M] (n : ℕ)
    (l : List (κ × M)) (p q : κ × M) (hp : p ∈ topVals n l) (hq : q ∈ l)
    (hqk : q.1 ∉ (topVals n l).map Prod.fst) : lexLe q p := by
  have hq' : q ∈ sortValuesDesc l := (mem_sortValuesDesc l q).2 hq
  have hsplit : sortValuesDesc l = topVals n l ++ (sortValuesDesc l).drop n :=
    (List.take_append_drop n _).symm
  have hqd : q ∈ (sortValuesDesc l).drop n := by
    rcases List.mem_append.1 (hsplit ▸ hq') with h | h
    · exact absurd (List.mem_map_of_mem Prod.fst h) hqk
    · exact h
  have hpw := sortValuesDesc_pairwise l
  rw [hsplit, List.pairwise_append] at hpw
  exact hpw.2.2 p hp q hqd

theorem topVals_keys_nodup {κ M : Type} [LinearOrder κ] [LinearOrder M] (n : ℕ)
    (l : List (κ × M)) (hnd : (l.map Prod.fst).Nodup) :
    ((topVals n l).map Prod.fst).Nodup := by
  have h1 : ((sortPairsAsc l).map Prod.fst).Nodup :=
    (List.Perm.map Prod.fst (sortPairsAsc_perm l)).nodup_iff.2 hnd
  have h2 : ((sortValuesDesc l).map Prod.fst).Nodup := by
    rw [sortValuesDesc, List.map_reverse, List.nodup_reverse]
    exact h1
  rw [topVals, List.map_take]
  exact List.Nodup.sublist (List.take_sublist n _) h2

end FlowerShop

/-! ## Substring, join and normalization lemmas -/

namespace FlowerShop

theorem subAt_iff (pat : List Char) : ∀ s, subAt pat s = true ↔ ∃ r, s = pat ++ r := by
  induction pat with
  | nil =>
    intro s
    constructor
    · intro _
      exact ⟨s, rfl⟩
    · intro _
      rfl
  | cons a as ih =>
    intro s
    cases s with
    | nil =>
      constructor
      · intro h
        exact absurd h (by simp [subAt])
      · rintro ⟨r, hr⟩
        exact absurd hr (by simp)
    | cons b bs =>
      have hstep : subAt (a :: as) (b :: bs) = (a == b && subAt as bs) := rfl
      rw [hstep, Bool.and_eq_true, beq_iff_eq, ih bs]
      constructor
      · rintro ⟨hab, r, hbs⟩
        refine ⟨r, ?_⟩
        rw [List.cons_append, hbs, hab]
      · rintro ⟨r, heq⟩
        rw [List.cons_append] at heq
        injection heq with h1 h2
        exact ⟨h1.symm, r, h2⟩

theorem hasSub_iff (pat : List Char) : ∀ s, hasSub pat s = true ↔ ∃ l r, s = l ++ pat ++ r := by
  intro s
  induction s with
  | nil =>
    rw [show hasSub pat [] = subAt pat [] from rfl, subAt_iff]
    constructor
    · rintro ⟨r, hr⟩
      exact ⟨[], r, by simpa using hr⟩
    · rintro ⟨l, r, hlr⟩
      have h := hlr.symm
      rw [List.append_assoc, List.append_eq_nil] at h
      obtain ⟨hl, hpr⟩ := h
      rw [List.append_eq_nil] at hpr
      exact ⟨r, by rw [hpr.1, hpr.2]; rfl⟩
  | cons c rest ih =>
    rw [show hasSub pat (c :: rest) = (subAt pat (c :: rest) || hasSub pat rest) from rfl,
      Bool.or_eq_true, subAt_iff, ih]
    constructor
    · rintro (⟨r, hr⟩ | ⟨l, r, hlr⟩)
      · exact ⟨[], r, by simpa using hr⟩
      · exact ⟨c :: l, r, by simp [hlr]⟩
    · rintro ⟨l, r, hlr⟩
      cases l with
      | nil => exact Or.inl ⟨r, by simpa using hlr⟩
      | cons x xs =>
        simp only [List.cons_append] at hlr
        injection hlr with h1 h2
        exact Or.inr ⟨xs, r, h2⟩

/-- `str.contains(pat, case=False)` for a literal pattern holds exactly
when the case-folded pattern occurs as a contiguous substring of the
case-folded name. -/
theorem containsCI_iff (s pat : String) :
    containsCI s pat = true ↔ ∃ l r, lowerStr s = l ++ lowerStr pat ++ r := by
  rw [containsCI, hasSub_iff]

theorem mem_joinRows (orders : List Order) (items : List OrderItem)
    (flowers : List Flower) (r : JRow) :
    r ∈ joinRows orders items flowers ↔
      r.item ∈ items ∧ r.flower ∈ flowers ∧ r.order ∈ orders ∧
        r.flower.id = r.item.flower_id ∧ r.order.id = r.item.order_id := by
  rw [joinRows]
  simp only [List.mem_flatMap, List.mem_map, List.mem_filter, decide_eq_true_eq]
  constructor
  · rintro ⟨it, hit, f, ⟨hf, hfid⟩, o, ⟨ho, hoid⟩, rfl⟩
    exact ⟨hit, hf, ho, hfid, hoid⟩
  · rintro ⟨hit, hf, ho, hfid, hoid⟩
    exact ⟨r.item, hit, r.flower, ⟨hf, hfid⟩, r.order, ⟨ho, hoid⟩, rfl⟩

theorem demandSeries_normalize (orders : List Order) :
    demandSeries (orders.map normalizeOrder) = demandSeries orders := by
  rw [demandSeries, demandSeries, groupSum, groupSum]
  have hkeys : (orders.map normalizeOrder).map (fun o => dateOf (parseTs o.ordered_at)) =
      orders.map (fun o => dateOf (parseTs o.ordered_at)) := by
    rw [List.map_map]
    rfl
  rw [hkeys]
  have hbody : (fun k : ℤ => (k,
        keySum (fun o => dateOf (parseTs o.ordered_at)) (fun o => o.total_price)
          (orders.map normalizeOrder) k)) =
      (fun k : ℤ => (k,
        keySum (fun o => dateOf (parseTs o.ordered_at)) (fun o => o.total_price) orders k)) := by
    funext k
    rw [keySum, keySum]
    have hfilter : (orders.map normalizeOrder).filter
        (fun o => decide (dateOf (parseTs o.ordered_at) = k)) =
        (orders.filter (fun o => decide (dateOf (parseTs o.ordered_at) = k))).map
          normalizeOrder := by
      rw [List.filter_map]
      rfl
    rw [hfilter, List.map_map]
    rfl
  rw [hbody]

theorem normalizeOrder_idem (o : Order) :
    normalizeOrder (normalizeOrder o) = normalizeOrder o := rfl

theorem map_normalize_idem (orders : List Order) :
    (orders.map normalizeOrder).map normalizeOrder = orders.map normalizeOrder := by
  rw [List.map_map]
  rfl

end FlowerShop

/-! ## Claim C7 and C10: empty-input policies -/

namespace FlowerShop

/-- C7: for every input where Orders is empty or OrderItems is empty,
`get_sales_analytics` takes the early-return path before any join and
returns normally (no error) exactly `most_sold_flower = None`,
`daily_revenue = 0`, `monthly_revenue = 0`, `top_customers = []`. -/
theorem claim_C7 (orders : List Order) (items : List OrderItem) (flowers : List Flower)
    (now : ℤ) (h : orders = [] ∨ items = []) :
    getSalesAnalytics orders items flowers now =
      Except.ok ⟨none, 0, 0, []⟩ := by
  rw [getSalesAnalytics, if_pos h]

theorem claim_C7_witness :
    getSalesAnalytics [] [⟨1, 2, 3, 4⟩] [⟨5, "Rose", 3⟩] 0 =
      Except.ok ⟨none, 0, 0, []⟩ :=
  claim_C7 [] [⟨1, 2, 3, 4⟩] [⟨5, "Rose", 3⟩] 0 (Or.inl rfl)

/-- C10: for every input where the Orders snapshot or the Flowers snapshot
is empty, `get_recommendations` returns all three lists empty — in
particular the seasonal list is empty with an empty Orders snapshot even
though seasonal is a pure filter of the Flowers snapshot. -/
theorem claim_C10 (uid : ℕ) (orders : List Order) (items : List OrderItem)
    (flowers : List Flower) (now : ℤ) (h : orders = [] ∨ flowers = []) :
    getRecommendations uid orders items flowers now =
      { most_purchased := [], seasonal := [], trending := [] } := by
  rw [getRecommendations, if_pos h]

theorem claim_C10_witness :
    (getRecommendations 7 [] [] [⟨1, "Rose", 2⟩] (165 * 86400)).seasonal = [] := by
  rw [claim_C10 7 [] [] [⟨1, "Rose", 2⟩] (165 * 86400) (Or.inl rfl)]

/-! ## Claim C9: daily revenue is bounded by monthly revenue -/

/-- C9: the claimed inequality concerns revenues the aggregator never
computes — on any input past the emptiness guard, line 27's
`df['total_price']` access hits the suffixed merge columns and raises
`KeyError` before `daily_revenue` exists.  Evaluated at a minimal
non-empty input, the code errors; and whenever `get_sales_analytics` does
return a record (the early-return path only), the inequality holds. -/
theorem claim_C9 :
    getSalesAnalytics [⟨1, 2, .parsed 86400, 5⟩] [⟨1, 7, 1, 3⟩] [⟨7, "B", 2⟩] 0 =
      Except.error "total_price" ∧
    (∀ (orders : List Order) (items : List OrderItem) (flowers : List Flower) (now : ℤ)
        (r : SalesAnalytics),
      getSalesAnalytics orders items flowers now = Except.ok r →
        r.daily_revenue ≤ r.monthly_revenue) := by
  constructor
  · with_unfolding_all rfl
  · intro orders items flowers now r h
    rw [getSalesAnalytics] at h
    by_cases hc : orders = [] ∨ items = []
    · rw [if_pos hc] at h
      have hr := Except.ok.inj h
      rw [← hr]
    · rw [if_neg hc] at h
      exact Except.noConfusion h

theorem claim_C9_witness :
    (⟨none, 0, 0, []⟩ : SalesAnalytics).daily_revenue ≤
      (⟨none, 0, 0, []⟩ : SalesAnalytics).monthly_revenue :=
  claim_C9.2 [] [] [] 0 ⟨none, 0, 0, []⟩ (by with_unfolding_all rfl)

end FlowerShop

/-! ## Structure of the forecast -/

namespace FlowerShop

theorem demandSeries_nil : demandSeries [] = [] := rfl

/-- On at least two distinct order dates, the forecast is the fitted line
evaluated at the next seven day indices, clamped at zero, dated from the
last observed date. -/
theorem predictDemand_spec (orders : List Order)
    (h2 : 2 ≤ (demandSeries orders).length) :
    predictDemand orders = (List.range 7).map (fun i =>
      { date := (((demandSeries orders).map (fun p => p.1)).max?).getD 0 + (i : ℤ) + 1,
        predicted_demand :=
          max 0 (olsSlope (idxFrom 0 ((demandSeries orders).map (fun p => p.2))) *
              (((demandSeries orders).length : ℚ) + (i : ℚ)) +
            olsIntercept (idxFrom 0 ((demandSeries orders).map (fun p => p.2)))) }) := by
  have hne : orders ≠ [] := by
    intro h
    subst h
    rw [demandSeries_nil] at h2
    simp at h2
  have h2' : ¬ (demandSeries orders).length < 2 := not_lt.2 h2
  rw [predictDemand]
  simp only [predictDemandEff, demandSeries_normalize, hne, if_false]
  rw [if_neg h2']
  rfl

/-- With fewer than two distinct order dates, the forecast is empty. -/
theorem predictDemand_degenerate (orders : List Order)
    (h2 : (demandSeries orders).length < 2) : predictDemand orders = [] := by
  rw [predictDemand]
  by_cases hne : orders = []
  · subst hne
    rfl
  · simp only [predictDemandEff, demandSeries_normalize, hne, if_false]
    rw [if_pos h2]

/-- C8: `predict_demand` returns the empty sequence exactly when Orders is
empty or fewer than two distinct order dates remain after grouping, and
otherwise returns exactly seven forecast points; the degenerate case is a
normal return, not an exception (the embedding is a total function). -/
theorem claim_C8 (orders : List Order) :
    (predictDemand orders = [] ↔
      (orders = [] ∨ (demandSeries orders).length < 2)) ∧
    (2 ≤ (demandSeries orders).length → (predictDemand orders).length = 7) := by
  have hlen : 2 ≤ (demandSeries orders).length → (predictDemand orders).length = 7 := by
    intro h2
    rw [predictDemand_spec orders h2, List.length_map, List.length_range]
  refine ⟨⟨?_, ?_⟩, hlen⟩
  · intro h
    by_cases hlt : (demandSeries orders).length < 2
    · exact Or.inr hlt
    · have h7 := hlen (not_lt.1 hlt)
      rw [h] at h7
      simp at h7
  · rintro (h | h)
    · subst h
      rfl
    · exact predictDemand_degenerate orders h

theorem claim_C8_witness :
    (predictDemand [⟨1, 1, .parsed (165 * 86400), 10⟩] = [] ↔
      (([⟨1, 1, .parsed (165 * 86400), 10⟩] : List Order) = [] ∨
        (demandSeries [⟨1, 1, .parsed (165 * 86400), 10⟩]).length < 2)) ∧
    (2 ≤ (demandSeries [⟨1, 1, .parsed (165 * 86400), 10⟩]).length →
      (predictDemand [⟨1, 1, .parsed (165 * 86400), 10⟩]).length = 7) :=
  claim_C8 [⟨1, 1, .parsed (165 * 86400), 10⟩]

end FlowerShop

/-! ## Claim C2: most-sold flower dominates every other name -/

namespace FlowerShop

theorem sortedKeys_ne_nil {κ : Type} [LinearOrder κ] (ks : List κ) (h : ks ≠ []) :
    sortedKeys ks ≠ [] := by
  cases ks with
  | nil => exact absurd rfl h
  | cons k ks =>
    intro hc
    have hmem : k ∈ sortedKeys (k :: ks) :=
      (mem_sortedKeys _ _).2 (List.mem_cons_self k ks)
    rw [hc] at hmem
    simp at hmem

theorem groupSum_ne_nil {ρ κ M : Type} [LinearOrder κ] [AddCommMonoid M]
    (key : ρ → κ) (val : ρ → M) (rows : List ρ) (h : rows ≠ []) :
    groupSum key val rows ≠ [] := by
  rw [groupSum]
  intro hc
  rw [List.map_eq_nil_iff] at hc
  exact sortedKeys_ne_nil (rows.map key) (by simpa using h) hc

theorem keySum_eq_zero {ρ κ M : Type} [LinearOrder κ] [AddCommMonoid M]
    (key : ρ → κ) (val : ρ → M) (rows : List ρ) (k : κ)
    (h : k ∉ rows.map key) : keySum key val rows k = 0 := by
  rw [keySum]
  have hf : rows.filter (fun r => decide (key r = k)) = [] := by
    rw [List.filter_eq_nil_iff]
    intro r hr hc
    rw [decide_eq_true_eq] at hc
    exact h (hc ▸ List.mem_map_of_mem key hr)
  rw [hf]
  rfl

/-- Total quantity of the joined rows carrying a given flower name. -/
def flowerNameQty (orders : List Order) (items : List OrderItem) (flowers : List Flower)
    (nm : String) : ℕ :=
  keySum (fun r : JRow => r.flower.name) (fun r => r.item.quantity)
    (joinRows orders items flowers) nm

/-- C2: the claimed return never happens — on every input past the
emptiness guard, `get_sales_analytics` raises `KeyError('total_price')`
at line 27 (the merge suffixed the shared `total_price` column), which
the evaluation at a minimal non-empty input shows.  The claim captures
the spec's intent: the most-sold name that line 23 computes just before
the raise does have a summed quantity at least that of every other
name. -/
theorem claim_C2 :
    getSalesAnalytics [⟨1, 1, .parsed 0, 0⟩] [⟨1, 5, 2, 10⟩] [⟨5, "A", 1⟩] 0 =
      Except.error "total_price" ∧
    (∀ (orders : List Order) (items : List OrderItem) (flowers : List Flower),
      joinRows orders items flowers ≠ [] →
      ∃ nm, mostSoldOf orders items flowers = some nm ∧
        ∀ nm' : String,
          flowerNameQty orders items flowers nm' ≤ flowerNameQty orders items flowers nm) := by
  refine ⟨by with_unfolding_all rfl, ?_⟩
  intro orders items flowers hj
  rw [mostSoldOf]
  obtain ⟨p, hidx, hmem, hmax⟩ :=
    idxmax_spec
      (groupSum (fun r : JRow => r.flower.name) (fun r => r.item.quantity)
        (joinRows orders items flowers))
      (groupSum_ne_nil _ _ _ hj)
  refine ⟨p.1, hidx, ?_⟩
  have hval : p.2 = flowerNameQty orders items flowers p.1 :=
    ((mem_groupSum _ _ _ p).1 hmem).2
  intro nm'
  by_cases hmem' : nm' ∈ (joinRows orders items flowers).map (fun r => r.flower.name)
  · have h1 : (nm', flowerNameQty orders items flowers nm') ∈
        groupSum (fun r : JRow => r.flower.name) (fun r => r.item.quantity)
          (joinRows orders items flowers) :=
      (mem_groupSum _ _ _ _).2 ⟨hmem', rfl⟩
    have h2 := hmax _ h1
    rw [hval] at h2
    exact h2
  · have hzero : flowerNameQty orders items flowers nm' = 0 :=
      keySum_eq_zero _ _ _ _ hmem'
    rw [hzero]
    exact Nat.zero_le _

theorem claim_C2_witness :
    mostSoldOf [⟨1, 1, .parsed 0, 0⟩] [⟨1, 5, 2, 10⟩] [⟨5, "A", 1⟩] = some "A" ∧
    flowerNameQty [⟨1, 1, .parsed 0, 0⟩] [⟨1, 5, 2, 10⟩] [⟨5, "A", 1⟩] "B" ≤
      flowerNameQty [⟨1, 1, .parsed 0, 0⟩] [⟨1, 5, 2, 10⟩] [⟨5, "A", 1⟩] "A" := by
  obtain ⟨nm, h1, h2⟩ :=
    claim_C2.2 [⟨1, 1, .parsed 0, 0⟩] [⟨1, 5, 2, 10⟩] [⟨5, "A", 1⟩] (by decide)
  have hA : mostSoldOf [⟨1, 1, .parsed 0, 0⟩] [⟨1, 5, 2, 10⟩] [⟨5, "A", 1⟩] =
      some "A" := by
    with_unfolding_all decide
  have hnm : nm = "A" := by
    rw [hA] at h1
    exact (Option.some_inj.1 h1).symm
  subst hnm
  exact ⟨hA, h2 "B"⟩

end FlowerShop

/-! ## Claim C4: frame effects of the three computations -/

namespace FlowerShop

/-- The `df_orders` frame after `predict_demand` returns: every
`ordered_at` cell has been re-encoded to its parsed form (for an empty
frame the map is vacuous and the frame is returned untouched). -/
theorem predictDemandEff_snd (orders : List Order) :
    (predictDemandEff orders).2 = orders.map normalizeOrder := by
  by_cases h : orders = []
  · subst h
    rfl
  · by_cases h2 : (demandSeries (orders.map normalizeOrder)).length < 2
    · simp [predictDemandEff, h, h2]
    · simp [predictDemandEff, h, h2]

/-- Re-running `predict_demand` on the frame the first call left behind
produces the identical forecast. -/
theorem predictDemand_idem (orders : List Order) :
    predictDemand ((predictDemandEff orders).2) = predictDemand orders := by
  rw [predictDemandEff_snd]
  by_cases h : orders = []
  · subst h
    rfl
  · have h' : orders.map normalizeOrder ≠ [] := by
      intro hc
      exact h (List.map_eq_nil_iff.1 hc)
    rw [predictDemand, predictDemand]
    simp only [predictDemandEff, h, h', if_false, map_normalize_idem, demandSeries_normalize]

/-- C4 (amended): `get_sales_analytics` and `get_recommendations` leave
all three snapshots unchanged; `predict_demand` re-encodes a non-empty
Orders snapshot in place (each `ordered_at` cell becomes its parsed form)
while preserving every order's `id`, `user_id`, denoted instant and
`total_price`; and re-running `predict_demand` on the snapshot it mutated
yields the identical forecast, so repeated calls agree. -/
theorem claim_C4_amended :
    (∀ (orders : List Order) (items : List OrderItem) (flowers : List Flower) (now : ℤ),
      (getSalesAnalyticsEff orders items flowers now).2 = (orders, items, flowers)) ∧
    (∀ (uid : ℕ) (orders : List Order) (items : List OrderItem) (flowers : List Flower)
        (now : ℤ),
      (getRecommendationsEff uid orders items flowers now).2 = (orders, items, flowers)) ∧
    (∀ orders : List Order, (predictDemandEff orders).2 = orders.map normalizeOrder) ∧
    (∀ orders : List Order,
      (predictDemandEff orders).2.map
          (fun o => (o.id, o.user_id, parseTs o.ordered_at, o.total_price)) =
        orders.map (fun o => (o.id, o.user_id, parseTs o.ordered_at, o.total_price))) ∧
    (∀ orders : List Order,
      predictDemand ((predictDemandEff orders).2) = predictDemand orders) := by
  refine ⟨fun _ _ _ _ => rfl, fun _ _ _ _ _ => rfl, predictDemandEff_snd, ?_,
    predictDemand_idem⟩
  intro orders
  rw [predictDemandEff_snd, List.map_map]
  rfl

/-- C4 as stated is false: on an Orders snapshot whose `ordered_at` cell
is still in raw (string) form, `predict_demand` hands back a mutated
snapshot, so the records are not the same after the call. -/
theorem claim_C4_counterexample :
    (predictDemandEff [⟨1, 1, TsCell.raw 0, 10⟩]).2 ≠ [⟨1, 1, TsCell.raw 0, 10⟩] := by
  with_unfolding_all decide

end FlowerShop

/-! ## Claim C1: the forecast is the least-squares line continued -/

namespace FlowerShop

/-- Orders whose daily revenue series is `[10, 20, 30]` on three
consecutive days (1970-06-15 .. 1970-06-17, day numbers 165..167). -/
def c1Orders : List Order :=
  [⟨1, 1, .parsed (165 * 86400), 10⟩, ⟨2, 1, .parsed (166 * 86400), 20⟩,
   ⟨3, 2, .parsed (167 * 86400), 30⟩]

/-- C1: with at least two distinct order dates, the daily series is
indexed in strictly ascending (chronological) date order, every forecast
point `i` is the fitted line evaluated at day index `k + i` clamped at
zero and dated `(last observed date) + (i + 1)`, the fitted coefficients
minimize the sum of squared residuals over the indexed series, and the
series `[10, 20, 30]` forecasts `40 .. 100` on the seven following days. -/
theorem claim_C1 :
    (∀ orders : List Order, 2 ≤ (demandSeries orders).length →
      ((demandSeries orders).map Prod.fst).Pairwise (· < ·) ∧
      predictDemand orders = (List.range 7).map (fun i =>
        { date := (((demandSeries orders).map (fun p => p.1)).max?).getD 0 + (i : ℤ) + 1,
          predicted_demand :=
            max 0 (olsSlope (idxFrom 0 ((demandSeries orders).map (fun p => p.2))) *
                (((demandSeries orders).length : ℚ) + (i : ℚ)) +
              olsIntercept (idxFrom 0 ((demandSeries orders).map (fun p => p.2)))) }) ∧
      (∀ a' b' : ℚ,
        sse (idxFrom 0 ((demandSeries orders).map (fun p => p.2)))
            (olsSlope (idxFrom 0 ((demandSeries orders).map (fun p => p.2))))
            (olsIntercept (idxFrom 0 ((demandSeries orders).map (fun p => p.2)))) ≤
          sse (idxFrom 0 ((demandSeries orders).map (fun p => p.2))) a' b')) ∧
    predictDemand c1Orders =
      [⟨168, 40⟩, ⟨169, 50⟩, ⟨170, 60⟩, ⟨171, 70⟩, ⟨172, 80⟩, ⟨173, 90⟩, ⟨174, 100⟩] := by
  constructor
  · intro orders h2
    have hlen : 2 ≤ ((demandSeries orders).map (fun p => p.2)).length := by
      rw [List.length_map]
      exact h2
    refine ⟨?_, predictDemand_spec orders h2, ?_⟩
    · rw [demandSeries, groupSum_keys]
      exact pairwise_sortedKeys _
    · intro a' b'
      exact ols_min _ (sN_idxFrom_ne _ hlen) (ne_of_gt (dDet_idxFrom_pos _ hlen)) a' b'
  · with_unfolding_all decide

theorem claim_C1_witness :
    predictDemand c1Orders =
      [⟨168, 40⟩, ⟨169, 50⟩, ⟨170, 60⟩, ⟨171, 70⟩, ⟨172, 80⟩, ⟨173, 90⟩, ⟨174, 100⟩] ∧
    sse (idxFrom 0 ((demandSeries c1Orders).map (fun p => p.2)))
        (olsSlope (idxFrom 0 ((demandSeries c1Orders).map (fun p => p.2))))
        (olsIntercept (idxFrom 0 ((demandSeries c1Orders).map (fun p => p.2)))) ≤
      sse (idxFrom 0 ((demandSeries c1Orders).map (fun p => p.2))) 0 0 := by
  have h2 : 2 ≤ (demandSeries c1Orders).length := by with_unfolding_all decide
  exact ⟨claim_C1.2, (claim_C1.1 c1Orders h2).2.2 0 0⟩

end FlowerShop

/-! ## Top-N over grouped sums: shared facts for C3 and C5 -/

namespace FlowerShop

theorem topVals_pairwise_strict {ρ κ M : Type} [LinearOrder κ] [LinearOrder M]
    [AddCommMonoid M] (n : ℕ) (key : ρ → κ) (val : ρ → M) (rows : List ρ) :
    (topVals n (groupSum key val rows)).Pairwise
      (fun p q => q.2 < p.2 ∨ (q.2 = p.2 ∧ q.1 < p.1)) := by
  have h1 := topVals_pairwise n (groupSum key val rows)
  have h2 : ((topVals n (groupSum key val rows)).map Prod.fst).Nodup :=
    topVals_keys_nodup n _ (nodup_groupSum_keys key val rows)
  have h2' : (topVals n (groupSum key val rows)).Pairwise (fun p q => p.1 ≠ q.1) :=
    List.pairwise_map.mp h2
  refine (h1.and h2').imp ?_
  rintro p q ⟨hle, hne⟩
  rw [lexLe] at hle
  rcases hle with h | ⟨he, hk⟩
  · exact Or.inl h
  · exact Or.inr ⟨he, lt_of_le_of_ne hk (Ne.symm hne)⟩

/-- What `sort_values(ascending=False).head(n)` over a groupby produces:
at most `n` rows, one per distinct key, strictly descending by value with
value ties broken by descending key, each row carrying that key's true
sum, and every kept row's value at least the sum of every cut key. -/
theorem topVals_groupSum_spec {ρ κ M : Type} [LinearOrder κ] [LinearOrder M]
    [AddCommMonoid M] (n : ℕ) (key : ρ → κ) (val : ρ → M) (rows : List ρ) :
    ((topVals n (groupSum key val rows)).length =
        min n (sortedKeys (rows.map key)).length) ∧
    (((topVals n (groupSum key val rows)).map Prod.fst).Nodup) ∧
    ((topVals n (groupSum key val rows)).Pairwise
        (fun p q => q.2 < p.2 ∨ (q.2 = p.2 ∧ q.1 < p.1))) ∧
    (∀ p ∈ topVals n (groupSum key val rows),
        p.1 ∈ rows.map key ∧ p.2 = keySum key val rows p.1) ∧
    (∀ p ∈ topVals n (groupSum key val rows), ∀ k', k' ∈ rows.map key →
        k' ∉ (topVals n (groupSum key val rows)).map Prod.fst →
          keySum key val rows k' ≤ p.2) := by
  refine ⟨?_, topVals_keys_nodup n _ (nodup_groupSum_keys key val rows),
    topVals_pairwise_strict n key val rows, ?_, ?_⟩
  · rw [topVals_length, groupSum_length]
  · intro p hp
    exact (mem_groupSum _ _ _ p).1 (topVals_subset n _ p hp)
  · intro p hp k' hk' hnot
    have hqmem : (k', keySum key val rows k') ∈ groupSum key val rows :=
      (mem_groupSum _ _ _ _).2 ⟨hk', rfl⟩
    have hsep := topVals_sep n _ p (k', keySum key val rows k') hp hqmem hnot
    rw [lexLe] at hsep
    rcases hsep with h | ⟨he, _⟩
    · exact le_of_lt h
    · exact le_of_eq he

/-! ## Claim C3: top customers -/

/-- C3: the `top_customers` pipeline (line 35) is never reached — at the
recorded input, execution raises `KeyError('total_price')` at line 27
(the merge suffixed the shared `total_price` column), so no top-customers
mapping is ever returned.  The claim captures the spec's intent for a
value the code cannot produce. -/
theorem claim_C3 :
    getSalesAnalytics [⟨1, 1, .parsed 0, 0⟩, ⟨2, 2, .parsed 0, 0⟩]
      [⟨1, 5, 1, 10⟩, ⟨2, 5, 1, 10⟩] [⟨5, "A", 1⟩] 0 =
      Except.error "total_price" := by
  with_unfolding_all rfl

end FlowerShop

/-! ## Claim C6: the seasonal list -/

namespace FlowerShop

/-- C6: with non-empty Orders and Flowers, the seasonal list contains
exactly the catalog flowers whose name contains, as a case-insensitive
substring, some name of the month's fixed seasonal catalog; in a
Jun/Jul/Aug month "Red Rose Bouquet" is kept and "Tulip Mix" is not. -/
theorem claim_C6 :
    (∀ (uid : ℕ) (orders : List Order) (items : List OrderItem) (flowers : List Flower)
        (now : ℤ), orders ≠ [] → flowers ≠ [] →
      ∀ f : Flower, f ∈ (getRecommendations uid orders items flowers now).seasonal ↔
        (f ∈ flowers ∧ ∃ w ∈ seasonWords (monthOfDay (dateOf now)),
          ∃ l r, lowerStr f.name = l ++ lowerStr w ++ r)) ∧
    (getRecommendations 1 [⟨1, 1, .parsed (165 * 86400), 0⟩] []
        [⟨1, "Red Rose Bouquet", 5⟩, ⟨2, "Tulip Mix", 4⟩] (165 * 86400)).seasonal =
      [⟨1, "Red Rose Bouquet", 5⟩] := by
  constructor
  · intro uid orders items flowers now ho hf f
    rw [getRecommendations, if_neg (by simp [ho, hf])]
    show f ∈ flowers.filter (fun f => (seasonWords (monthOfDay (dateOf now))).any
      (fun w => containsCI f.name w)) ↔ _
    rw [List.mem_filter]
    simp only [List.any_eq_true, containsCI_iff]
  · with_unfolding_all decide

theorem claim_C6_witness :
    (⟨1, "Red Rose Bouquet", 5⟩ : Flower) ∈
      (getRecommendations 1 [⟨1, 1, .parsed (165 * 86400), 0⟩] []
        [⟨1, "Red Rose Bouquet", 5⟩, ⟨2, "Tulip Mix", 4⟩] (165 * 86400)).seasonal ∧
    (⟨2, "Tulip Mix", 4⟩ : Flower) ∉
      (getRecommendations 1 [⟨1, 1, .parsed (165 * 86400), 0⟩] []
        [⟨1, "Red Rose Bouquet", 5⟩, ⟨2, "Tulip Mix", 4⟩] (165 * 86400)).seasonal := by
  have hgen := claim_C6.1 1 [⟨1, 1, .parsed (165 * 86400), 0⟩] []
    [⟨1, "Red Rose Bouquet", 5⟩, ⟨2, "Tulip Mix", 4⟩] (165 * 86400)
    (by decide) (by decide)
  constructor
  · refine (hgen ⟨1, "Red Rose Bouquet", 5⟩).2 ⟨by simp, "Rose", by decide, ?_⟩
    exact ⟨"red ".data, " bouquet".data, by decide⟩
  · intro hc
    rw [claim_C6.2] at hc
    rw [List.mem_singleton] at hc
    have : (2 : ℕ) = 1 := congrArg Flower.id hc
    exact absurd this (by decide)

end FlowerShop

/-! ## Claim C5: most-purchased and trending lists -/

namespace FlowerShop

/-- Total quantity of one flower id over a set of order items. -/
def itemQty (items' : List OrderItem) (j : ℕ) : ℕ :=
  keySum (fun it : OrderItem => it.flower_id) (fun it => it.quantity) items' j

/-- What `resolveIds flowers (topIds items')` yields when every referenced
flower id resolves and catalog ids are unique: the catalog records of the
kept ids, one per id, the kept ids dominating every cut id in summed
quantity, the underlying ranked pairs strictly descending with quantity
ties broken by descending flower id. -/
theorem resolveTop_spec (items' : List OrderItem) (flowers : List Flower)
    (hint : ∀ it ∈ items', it.flower_id ∈ flowers.map (fun f => f.id))
    (hnd : (flowers.map (fun f => f.id)).Nodup) :
    (∀ f ∈ resolveIds flowers (topIds items'), f ∈ flowers ∧ f.id ∈ topIds items') ∧
    (∀ i ∈ topIds items', ∃ f ∈ resolveIds flowers (topIds items'), f.id = i) ∧
    ((resolveIds flowers (topIds items')).length =
      min 3 (sortedKeys (items'.map (fun it => it.flower_id))).length) ∧
    (∀ f ∈ resolveIds flowers (topIds items'),
      ∀ j, j ∈ items'.map (fun it => it.flower_id) → j ∉ topIds items' →
        itemQty items' j ≤ itemQty items' f.id) ∧
    ((topIdPairs items').Pairwise (fun p q => q.2 < p.2 ∨ (q.2 = p.2 ∧ q.1 < p.1))) := by
  have hspec := topVals_groupSum_spec 3 (fun it : OrderItem => it.flower_id)
    (fun it => it.quantity) items'
  have hmemres : ∀ f, f ∈ resolveIds flowers (topIds items') ↔
      f ∈ flowers ∧ f.id ∈ topIds items' := by
    intro f
    rw [resolveIds, List.mem_filter, decide_eq_true_eq]
  have htop_mem : ∀ i ∈ topIds items', i ∈ items'.map (fun it => it.flower_id) := by
    intro i hi
    obtain ⟨p, hp, rfl⟩ := List.mem_map.1 hi
    exact (hspec.2.2.2.1 p hp).1
  have hsurj : ∀ i ∈ topIds items', ∃ f ∈ resolveIds flowers (topIds items'), f.id = i := by
    intro i hi
    have hi' := htop_mem i hi
    obtain ⟨it, hit, hfid⟩ := List.mem_map.1 hi'
    have := hint it hit
    rw [hfid] at this
    obtain ⟨f, hf, hfi⟩ := List.mem_map.1 this
    exact ⟨f, (hmemres f).2 ⟨hf, hfi ▸ hi⟩, hfi⟩
  refine ⟨fun f hf => (hmemres f).1 hf, hsurj, ?_, ?_, hspec.2.2.1⟩
  · -- length: the resolved ids are a permutation of the kept ids
    have hresnd : ((resolveIds flowers (topIds items')).map (fun f => f.id)).Nodup := by
      have hsub : List.Sublist ((resolveIds flowers (topIds items')).map (fun f => f.id))
          (flowers.map (fun f => f.id)) :=
        List.Sublist.map _ (List.filter_sublist flowers)
      exact List.Nodup.sublist hsub hnd
    have htopnd : (topIds items').Nodup := hspec.2.1
    have hext : ∀ x, x ∈ (resolveIds flowers (topIds items')).map (fun f => f.id) ↔
        x ∈ topIds items' := by
      intro x
      constructor
      · intro hx
        obtain ⟨f, hf, rfl⟩ := List.mem_map.1 hx
        exact ((hmemres f).1 hf).2
      · intro hx
        obtain ⟨f, hf, hfi⟩ := hsurj x hx
        exact List.mem_map.2 ⟨f, hf, hfi⟩
    have hperm : ((resolveIds flowers (topIds items')).map (fun f => f.id)).Perm
        (topIds items') :=
      (List.perm_ext_iff_of_nodup hresnd htopnd).2 hext
    have hlen1 := hperm.length_eq
    rw [List.length_map] at hlen1
    rw [hlen1, topIds, List.length_map, topIdPairs, topVals_length, groupSum_length]
  · intro f hf j hj hnotin
    have hfid := ((hmemres f).1 hf).2
    obtain ⟨p, hp, hpfst⟩ := List.mem_map.1 hfid
    have hpval := (hspec.2.2.2.1 p hp).2
    have hdom := hspec.2.2.2.2 p hp j hj (by rw [topIds] at hnotin; exact hnotin)
    rw [hpval, hpfst] at hdom
    exact hdom

end FlowerShop

namespace FlowerShop

theorem getRecommendations_mp (uid : ℕ) (orders : List Order) (items : List OrderItem)
    (flowers : List Flower) (now : ℤ) (ho : orders ≠ []) (hf : flowers ≠ []) :
    (getRecommendations uid orders items flowers now).most_purchased =
      (if userOrdersOf uid orders = [] then []
       else if itemsOfOrders (userOrdersOf uid orders) items = [] then []
       else resolveIds flowers (topIds (itemsOfOrders (userOrdersOf uid orders) items))) := by
  rw [getRecommendations, if_neg (by simp [ho, hf])]

theorem getRecommendations_tr (uid : ℕ) (orders : List Order) (items : List OrderItem)
    (flowers : List Flower) (now : ℤ) (ho : orders ≠ []) (hf : flowers ≠ []) :
    (getRecommendations uid orders items flowers now).trending =
      (if recentOrdersOf now orders = [] then []
       else if itemsOfOrders (recentOrdersOf now orders) items = [] then []
       else resolveIds flowers (topIds (itemsOfOrders (recentOrdersOf now orders) items))) := by
  rw [getRecommendations, if_neg (by simp [ho, hf])]

/-- C5 (amended): with non-empty Orders and Flowers, resolvable item
references and unique catalog ids, `most_purchased` (resp. `trending`) is
empty when the user has no orders / the window has no orders or no
matching items, and otherwise consists of the full catalog records of the
at most 3 flower ids with the highest summed quantity over the user's own
items (resp. the items of orders placed at or after `now` minus 7 days),
where quantity ties are broken by DESCENDING flower id; every selected id
resolves, each kept flower's quantity dominates every cut candidate, and
the ranked pairs are strictly descending. -/
theorem claim_C5_amended (uid : ℕ) (orders : List Order) (items : List OrderItem)
    (flowers : List Flower) (now : ℤ) (ho : orders ≠ []) (hf : flowers ≠ [])
    (hint : ∀ it ∈ items, it.flower_id ∈ flowers.map (fun f => f.id))
    (hnd : (flowers.map (fun f => f.id)).Nodup) :
    ((userOrdersOf uid orders = [] ∨ itemsOfOrders (userOrdersOf uid orders) items = []) →
      (getRecommendations uid orders items flowers now).most_purchased = []) ∧
    (userOrdersOf uid orders ≠ [] → itemsOfOrders (userOrdersOf uid orders) items ≠ [] →
      (∀ f ∈ (getRecommendations uid orders items flowers now).most_purchased,
        f ∈ flowers ∧ f.id ∈ topIds (itemsOfOrders (userOrdersOf uid orders) items)) ∧
      (∀ i ∈ topIds (itemsOfOrders (userOrdersOf uid orders) items),
        ∃ f ∈ (getRecommendations uid orders items flowers now).most_purchased, f.id = i) ∧
      ((getRecommendations uid orders items flowers now).most_purchased.length =
        min 3 (sortedKeys ((itemsOfOrders (userOrdersOf uid orders) items).map
          (fun it => it.flower_id))).length) ∧
      (∀ f ∈ (getRecommendations uid orders items flowers now).most_purchased,
        ∀ j, j ∈ (itemsOfOrders (userOrdersOf uid orders) items).map
            (fun it => it.flower_id) →
          j ∉ topIds (itemsOfOrders (userOrdersOf uid orders) items) →
            itemQty (itemsOfOrders (userOrdersOf uid orders) items) j ≤
              itemQty (itemsOfOrders (userOrdersOf uid orders) items) f.id) ∧
      ((topIdPairs (itemsOfOrders (userOrdersOf uid orders) items)).Pairwise
        (fun p q => q.2 < p.2 ∨ (q.2 = p.2 ∧ q.1 < p.1)))) ∧
    ((recentOrdersOf now orders = [] ∨
        itemsOfOrders (recentOrdersOf now orders) items = []) →
      (getRecommendations uid orders items flowers now).trending = []) ∧
    (recentOrdersOf now orders ≠ [] → itemsOfOrders (recentOrdersOf now orders) items ≠ [] →
      (∀ f ∈ (getRecommendations uid orders items flowers now).trending,
        f ∈ flowers ∧ f.id ∈ topIds (itemsOfOrders (recentOrdersOf now orders) items)) ∧
      (∀ i ∈ topIds (itemsOfOrders (recentOrdersOf now orders) items),
        ∃ f ∈ (getRecommendations uid orders items flowers now).trending, f.id = i) ∧
      ((getRecommendations uid orders items flowers now).trending.length =
        min 3 (sortedKeys ((itemsOfOrders (recentOrdersOf now orders) items).map
          (fun it => it.flower_id))).length) ∧
      (∀ f ∈ (getRecommendations uid orders items flowers now).trending,
        ∀ j, j ∈ (itemsOfOrders (recentOrdersOf now orders) items).map
            (fun it => it.flower_id) →
          j ∉ topIds (itemsOfOrders (recentOrdersOf now orders) items) →
            itemQty (itemsOfOrders (recentOrdersOf now orders) items) j ≤
              itemQty (itemsOfOrders (recentOrdersOf now orders) items) f.id) ∧
      ((topIdPairs (itemsOfOrders (recentOrdersOf now orders) items)).Pairwise
        (fun p q => q.2 < p.2 ∨ (q.2 = p.2 ∧ q.1 < p.1)))) := by
  have hmp := getRecommendations_mp uid orders items flowers now ho hf
  have htr := getRecommendations_tr uid orders items flowers now ho hf
  refine ⟨?_, ?_, ?_, ?_⟩
  · intro h
    rcases h with h | h
    · rw [hmp, if_pos h]
    · by_cases h0 : userOrdersOf uid orders = []
      · rw [hmp, if_pos h0]
      · rw [hmp, if_neg h0, if_pos h]
  · intro h1 h2
    rw [hmp, if_neg h1, if_neg h2]
    have hintsub : ∀ it ∈ itemsOfOrders (userOrdersOf uid orders) items,
        it.flower_id ∈ flowers.map (fun f => f.id) := by
      intro it hit
      exact hint it (List.mem_of_mem_filter hit)
    have hs := resolveTop_spec (itemsOfOrders (userOrdersOf uid orders) items) flowers
      hintsub hnd
    exact ⟨hs.1, hs.2.1, hs.2.2.1, hs.2.2.2.1, hs.2.2.2.2⟩
  · intro h
    rcases h with h | h
    · rw [htr, if_pos h]
    · by_cases h0 : recentOrdersOf now orders = []
      · rw [htr, if_pos h0]
      · rw [htr, if_neg h0, if_pos h]
  · intro h1 h2
    rw [htr, if_neg h1, if_neg h2]
    have hintsub : ∀ it ∈ itemsOfOrders (recentOrdersOf now orders) items,
        it.flower_id ∈ flowers.map (fun f => f.id) := by
      intro it hit
      exact hint it (List.mem_of_mem_filter hit)
    have hs := resolveTop_spec (itemsOfOrders (recentOrdersOf now orders) items) flowers
      hintsub hnd
    exact ⟨hs.1, hs.2.1, hs.2.2.1, hs.2.2.2.1, hs.2.2.2.2⟩

end FlowerShop

namespace FlowerShop

/-- C5 counterexample data: user 1's order, placed at `now`
(day 165 = 1970-06-15), buys quantity 2 of each of flowers 1..4 — a
four-way tie; user 2's order, dated 30 days AFTER `now` (day 195), is the
only purchase of flower 5. -/
def c5Orders : List Order :=
  [⟨1, 1, .parsed (165 * 86400), 0⟩, ⟨2, 2, .parsed (195 * 86400), 0⟩]

def c5Items : List OrderItem :=
  [⟨1, 1, 2, 2⟩, ⟨1, 2, 2, 2⟩, ⟨1, 3, 2, 2⟩, ⟨1, 4, 2, 2⟩, ⟨2, 5, 10, 10⟩]

def c5Flowers : List Flower :=
  [⟨1, "A", 1⟩, ⟨2, "B", 1⟩, ⟨3, "C", 1⟩, ⟨4, "D", 1⟩, ⟨5, "E", 1⟩]

/-- C5 as stated is false on two counts at this input.  Tie-break:
`most_purchased` keeps flowers 2, 3, 4 and drops flower 1 even though
flowers 1 and 4 tie in summed quantity — the boundary tie is resolved by
DESCENDING flower id (the claimed ascending rule would keep 1, 2, 3).
Window: flower 5 appears in `trending`, yet its only purchase is order 2,
whose instant lies 30 days after `now` — outside every "last 7 days
ending at now" window — so the trending window has no upper bound. -/
theorem claim_C5_counterexample :
    ((getRecommendations 1 c5Orders c5Items c5Flowers (165 * 86400)).most_purchased.map
      (fun f => f.id) = [2, 3, 4]) ∧
    (itemQty (itemsOfOrders (userOrdersOf 1 c5Orders) c5Items) 1 =
      itemQty (itemsOfOrders (userOrdersOf 1 c5Orders) c5Items) 4) ∧
    ((⟨1, "A", 1⟩ : Flower) ∉
      (getRecommendations 1 c5Orders c5Items c5Flowers (165 * 86400)).most_purchased) ∧
    ((getRecommendations 1 c5Orders c5Items c5Flowers (165 * 86400)).trending.map
      (fun f => f.id) = [3, 4, 5]) ∧
    ((165 * 86400 : ℤ) <
      parseTs (⟨2, 2, .parsed (195 * 86400), 0⟩ : Order).ordered_at) := by
  refine ⟨?_, ?_, ?_, ?_, ?_⟩ <;> with_unfolding_all decide

theorem claim_C5_witness :
    (getRecommendations 1 [⟨1, 1, .parsed (165 * 86400), 0⟩]
        [⟨1, 1, 2, 2⟩, ⟨1, 2, 3, 3⟩]
        [⟨1, "A", 1⟩, ⟨2, "B", 1⟩]
        (165 * 86400)).most_purchased.length =
      min 3 (sortedKeys ((itemsOfOrders
        (userOrdersOf 1 [⟨1, 1, .parsed (165 * 86400), 0⟩])
        [⟨1, 1, 2, 2⟩, ⟨1, 2, 3, 3⟩]).map (fun it => it.flower_id))).length := by
  have h := claim_C5_amended 1 [⟨1, 1, .parsed (165 * 86400), 0⟩]
    [⟨1, 1, 2, 2⟩, ⟨1, 2, 3, 3⟩] [⟨1, "A", 1⟩, ⟨2, "B", 1⟩] (165 * 86400)
    (by decide) (by decide) (by decide) (by decide)
  exact (h.2.1 (by decide) (by decide)).2.2.1

end FlowerShop
